import Mathlib

/-!
Verification of the analytics scripts `personal_finance_analyzer.py` and
`time_tracking_analyzer.py`.

Modelling conventions:
* A CSV cell that has been coerced by `pd.to_datetime(..., errors := coerce)` or
  `pd.to_numeric(..., errors := coerce)` is represented by an `Option` value,
  `none` standing for the NaN/NaT produced when the cell fails to parse.
* Dates are day numbers (days since a fixed Monday epoch), so that
  `d % 7 = 0` means `d` is a Monday.  Amounts and durations are rationals.
* `pd.Series.resample` with rule W-MON produces right-closed, right-labelled
  weekly bins: a date `d` falls in the bin labelled with the smallest Monday
  `≥ d`, and every weekly label between the first and the last is emitted,
  empty bins summing to 0.
* Chart rendering is modelled only through the list of file names the run
  would save, guarded by the same emptiness checks the code performs.
-/

/-- Lowercasing as Python `str.lower` acts on the ASCII text in play:
the character list of the string, each character lowercased. -/
def lowerChars (s : String) : List Char := s.data.map Char.toLower

/-- Check that `need` is an initial segment of `hay` (helper for substring tests). -/
def startsW : List Char → List Char → Bool
  | _, [] => true
  | [], _ :: _ => false
  | h :: t, n :: m => h = n && startsW t m

/-- Membership of `need` as a contiguous substring of `hay`, the semantics of
the Python expression `keyword in description_lower`. -/
def hasSub : List Char → List Char → Bool
  | [], need => need.isEmpty
  | h :: t, need => startsW (h :: t) need || hasSub t need

/-- Failure taxonomy of the two loaders.  The first three variants correspond
to the read_csv try/except arms; `missingColumns` to the required-column check;
`noValidData` to the time-tracking loader's empty-after-dropna check. -/
inductive LoadError where
  | fileNotFound
  | emptyInput
  | parseError
  | missingColumns (cols : List String)
  | noValidData
deriving DecidableEq

namespace PFA

/-- Raw row of a finance CSV after the coercions of `load_finance_data`:
`date` is the `pd.to_datetime` result (none = NaT), `amount` the
`pd.to_numeric` result (none = NaN), `category` the optional explicit
`Category` cell (none = absent or NaN). -/
structure RawRow where
  date : Option ℕ
  description : String
  amount : Option ℚ
  category : Option String
deriving DecidableEq

/-- Loaded finance row: date parsed, amount defaulted to 0 when unparsable. -/
structure Row where
  date : ℕ
  description : String
  amount : ℚ
  category : Option String
deriving DecidableEq

/-- Finance input file: header column names plus rows. -/
structure FinanceInput where
  columns : List String
  rows : List RawRow
deriving DecidableEq

def financeRequiredCols : List String := ["Date", "Description", "Amount"]

/-- Per-row effect of lines 33-37 of `personal_finance_analyzer.py`:
`Amount` NaN is filled with 0, rows with unparsable `Date` are dropped. -/
def coerceFinRow (raw : RawRow) : Option Row :=
  match raw.date with
  | none => none
  | some d => some ⟨d, raw.description, raw.amount.getD 0, raw.category⟩

/-- Model of `load_finance_data`: required-column check, then coercion.
Note the function returns the surviving rows even when none survive. -/
def load_finance_data (input : FinanceInput) : Except LoadError (List Row) :=
  let missing := financeRequiredCols.filter (fun c => ¬ c ∈ input.columns)
  if missing.isEmpty then .ok (input.rows.filterMap coerceFinRow)
  else .error (.missingColumns missing)

/-- Total income of `calculate_summary_stats`: sum of the positive amounts. -/
def total_income (rows : List Row) : ℚ :=
  ((rows.filter (fun r => r.amount > 0)).map (fun r => r.amount)).sum

/-- Total expenses of `calculate_summary_stats`: negated sum of the negative amounts. -/
def total_expenses (rows : List Row) : ℚ :=
  ((rows.filter (fun r => r.amount < 0)).map (fun r => r.amount)).sum * (-1)

def net_savings (rows : List Row) : ℚ := total_income rows - total_expenses rows

/-- The keyword table, in its Python declaration order. -/
def KEYWORD_CATEGORIES : List (String × List String) :=
  [("Groceries", ["grocery", "supermarket", "market", "food lion", "trader joe", "walmart"]),
   ("Transport", ["uber", "lyft", "taxi", "gas", "fuel", "metro", "subway", "bus"]),
   ("Utilities", ["bill", "electricity", "water", "internet", "phone", "gas com"]),
   ("Dining", ["restaurant", "cafe", "dinner", "lunch", "brunch", "starbucks"]),
   ("Shopping", ["amazon", "store", "shop", "clothing", "electronics"]),
   ("Healthcare", ["pharmacy", "doctor", "hospital", "clinic"]),
   ("Entertainment", ["movie", "concert", "show", "game"]),
   ("Travel", ["flight", "hotel", "airbnb", "booking"]),
   ("Rent/Mortgage", ["rent", "mortgage"]),
   ("Income", ["salary", "deposit", "paycheck"])]

/-- Model of `infer_category`: positive amounts are Income; otherwise the
first category of the table one of whose keywords occurs in the lowercased
description wins, except that a first match on the Income row of the table
falls back to Miscellaneous Expense for non-positive amounts. -/
def infer_category (description : String) (amount : ℚ) : String :=
  if amount > 0 then "Income"
  else
    let dl := lowerChars description
    match KEYWORD_CATEGORIES.find? (fun ck => ck.2.any (fun kw => hasSub dl kw.data)) with
    | some ck =>
        if ck.1 = "Income" then (if amount > 0 then "Income" else "Miscellaneous Expense")
        else ck.1
    | none => "Miscellaneous Expense"

/-- Number of null cells of the explicit Category column among `l`. -/
def nullCount (l : List Row) : ℕ := (l.filter (fun r => r.category = none)).length

/-- The pandas `groupby(col).sum().abs()` step on (key, amount) pairs:
one entry per distinct key, carrying the absolute value of the group sum. -/
def groupAbs (l : List (String × ℚ)) : List (String × ℚ) :=
  ((l.map Prod.fst).dedup).map
    (fun k => (k, |((l.filter (fun p => p.1 = k)).map Prod.snd).sum|))

/-- The pandas `sort_values(ascending := false)` step. -/
def sortDesc (l : List (String × ℚ)) : List (String × ℚ) :=
  l.mergeSort (fun a b => b.2 ≤ a.2)

/-- Model of `analyze_spending_by_category`.  Returns `none` on each early
`return` of the Python function, otherwise the flag `use_inferred_category`
together with the `spending_by_cat` series.  The explicit-column branch drops
rows labelled income case-insensitively, and the groupby silently drops
rows whose explicit category cell is null, as pandas does. -/
def analyze_spending_by_category (columns : List String) (rows : List Row) :
    Option (Bool × List (String × ℚ)) :=
  if rows.isEmpty then none
  else
    let expenses := rows.filter (fun r => r.amount < 0)
    if expenses.isEmpty then none
    else if ¬ "Category" ∈ columns ∨
            ((nullCount expenses : ℚ) > 7 / 10 * (expenses.length : ℚ)) then
      let tagged := expenses.map (fun r => (infer_category r.description r.amount, r.amount))
      let kept := tagged.filter (fun p => ¬ p.1 = "Income")
      if ((kept.map Prod.fst).dedup).isEmpty then none
      else some (true, sortDesc (groupAbs kept))
    else
      let kept := expenses.filter (fun r => ¬ (r.category.map lowerChars = some "income".data))
      let withCat := kept.filterMap (fun r => r.category.map (fun c => (c, r.amount)))
      if kept.isEmpty ∨ ((withCat.map Prod.fst).dedup).isEmpty then none
      else some (false, sortDesc (groupAbs withCat))

/-- Model of the finance `main`: the printed summary statistics (none when the
loader failed) together with the chart files the run saves.  The spending
chart is saved only when `spending_by_cat` is nonempty; the monthly-trends
chart only when the monthly summary (a groupby of all loaded rows) is
nonempty, i.e. exactly when some row was loaded. -/
def financeRun (input : FinanceInput) : Option (ℚ × ℚ × ℚ) × List String :=
  match load_finance_data input with
  | .error _ => (none, [])
  | .ok rows =>
    let charts1 :=
      match analyze_spending_by_category input.columns rows with
      | some (_, groups) => if groups.isEmpty then [] else ["spending_by_category.png"]
      | none => []
    let charts2 := if rows.isEmpty then [] else ["monthly_trends.png"]
    (some (total_income rows, total_expenses rows, net_savings rows), charts1 ++ charts2)

/-- First category of the table with a keyword occurring in the lowercased
description, if any. -/
def firstMatchCat (description : String) : Option String :=
  (KEYWORD_CATEGORIES.find?
    (fun ck => ck.2.any (fun kw => hasSub (lowerChars description) kw.data))).map Prod.fst

/-- Modelled from the words of the classifier claim, before amendment:
positive amounts map to Income, otherwise the first matching category of the
table is returned unconditionally, Miscellaneous Expense only when no
category matches. -/
def claimClassifierOrig (description : String) (amount : ℚ) : String :=
  if amount > 0 then "Income"
  else
    match firstMatchCat description with
    | some c => c
    | none => "Miscellaneous Expense"

/-- Modelled from the amended classifier claim: as `claimClassifierOrig`,
except that a first match on the Income category yields Miscellaneous
Expense for non-positive amounts. -/
def claimClassifierAmended (description : String) (amount : ℚ) : String :=
  if amount > 0 then "Income"
  else
    match firstMatchCat description with
    | some c => if c = "Income" then "Miscellaneous Expense" else c
    | none => "Miscellaneous Expense"

end PFA

namespace TTA

/-- Raw row of a time-tracking CSV: the `pd.to_datetime` result for `Date`
and the `pd.to_numeric` result for `Duration` (none = failed coercion). -/
structure RawRow where
  date : Option ℕ
  duration : Option ℚ
deriving DecidableEq

/-- Loaded time-tracking row. -/
structure Row where
  date : ℕ
  duration : ℚ
deriving DecidableEq

/-- Time-tracking input file: header column names plus rows. -/
structure TimeInput where
  columns : List String
  rows : List RawRow
deriving DecidableEq

def timeRequiredCols : List String := ["Date", "Duration"]

def projectColOptions : List String := ["Project", "Task"]

/-- Per-row effect of lines 47-53 of `time_tracking_analyzer.py`: a row
survives only when both `Date` and `Duration` coerce. -/
def coerceTimeRow (raw : RawRow) : Option Row :=
  match raw.date, raw.duration with
  | some d, some du => some ⟨d, du⟩
  | _, _ => none

/-- Model of `load_time_data`: required columns, project/task column
detection, coercions, and the empty-after-dropna check that produces the
no-valid-data failure. -/
def load_time_data (input : TimeInput) : Except LoadError (List Row × String) :=
  let missing := timeRequiredCols.filter (fun c => ¬ c ∈ input.columns)
  if ¬ missing.isEmpty then .error (.missingColumns missing)
  else
    match projectColOptions.find? (fun c => c ∈ input.columns) with
    | none => .error (.missingColumns projectColOptions)
    | some pcol =>
      let rows := input.rows.filterMap coerceTimeRow
      if rows.isEmpty then .error .noValidData
      else .ok (rows, pcol)

/-- Label that the W-MON resampling rule gives to day `d`: the smallest
Monday (multiple of 7 under the Monday epoch) that is `≥ d`; bins are
right-closed and right-labelled. -/
def wmonLabel (d : ℕ) : ℕ := 7 * ((d + 6) / 7)

/-- Minimum date of `r :: rs` (the DatetimeIndex min). -/
def datesMin (r : Row) (rs : List Row) : ℕ :=
  rs.foldl (fun a x => min a x.date) r.date

/-- Maximum date of `r :: rs` (the DatetimeIndex max). -/
def datesMax (r : Row) (rs : List Row) : ℕ :=
  rs.foldl (fun a x => max a x.date) r.date

/-- All weekly labels from `first` to `last`, stepping 7 days: the full
index that `resample` generates, empty bins included. -/
def weeklyLabels (first last : ℕ) : List ℕ :=
  (List.range ((last - first) / 7 + 1)).map (fun i => first + 7 * i)

/-- Model of `analyze_time_trends` with period W, i.e. of
`trends_df.resample(W-MON).sum()`: one bucket per weekly label spanning the
data, each holding the sum of the durations of the rows in its bin. -/
def analyze_time_trends_W (rows : List Row) : List (ℕ × ℚ) :=
  match rows with
  | [] => []
  | r :: rs =>
    (weeklyLabels (wmonLabel (datesMin r rs)) (wmonLabel (datesMax r rs))).map
      (fun lab =>
        (lab, (((r :: rs).filter (fun x => wmonLabel x.date = lab)).map
                 (fun x => x.duration)).sum))

/-- Modelled from the words of the weekly-trend claim: one bucket per ISO
week starting Monday that actually contains an entry (`d - d % 7` is the
Monday on or before `d`), durations summed within the bucket, no bucket for
empty weeks. -/
def isoWeekBuckets (rows : List Row) : List (ℕ × ℚ) :=
  ((rows.map (fun r => r.date - r.date % 7)).dedup).map
    (fun w => (w, ((rows.filter (fun r => r.date - r.date % 7 = w)).map
                     (fun r => r.duration)).sum))

end TTA

section GroupSumLemmas

variable {α κ : Type} [DecidableEq κ]

/-- Summing a mapped if over a duplicate-free key list that contains `c`
extracts the extra summand `v` exactly once. -/
lemma sum_map_if_mem (keys : List κ) (c : κ) (v : ℚ) (w : κ → ℚ)
    (hnd : keys.Nodup) (hc : c ∈ keys) :
    (keys.map (fun k => if c = k then v + w k else w k)).sum = v + (keys.map w).sum := by
  induction keys with
  | nil => cases hc
  | cons k0 ks ih =>
    rcases List.nodup_cons.mp hnd with ⟨hk0, hks⟩
    rcases List.mem_cons.mp hc with hck0 | hcks
    · subst hck0
      have htail : ks.map (fun k => if c = k then v + w k else w k) = ks.map w := by
        apply List.map_congr_left
        intro k hk
        have : ¬ c = k := fun h => hk0 (h ▸ hk)
        simp [this]
      rw [List.map_cons, List.sum_cons, htail, if_pos rfl, List.map_cons, List.sum_cons]
      ring
    · have hck0 : ¬ c = k0 := fun h => (h ▸ hk0) hcks
      simp only [List.map_cons, List.sum_cons, if_neg hck0, ih hks hcks]
      ring

/-- Summing, over a duplicate-free covering key list, the sums of the fibers
of `key` recovers the total sum: the groupby is an exact partition. -/
lemma sum_groups (key : α → κ) (val : α → ℚ) (keys : List κ) (l : List α)
    (hnd : keys.Nodup) (hcov : ∀ a ∈ l, key a ∈ keys) :
    (keys.map (fun k => ((l.filter (fun a => key a = k)).map val).sum)).sum
      = (l.map val).sum := by
  induction l with
  | nil => simp
  | cons a t ih =>
    have hterm : ∀ k ∈ keys,
        (((a :: t).filter (fun x => key x = k)).map val).sum
          = (fun k => if key a = k then val a + ((t.filter (fun x => key x = k)).map val).sum
              else ((t.filter (fun x => key x = k)).map val).sum) k := by
      intro k _
      by_cases h : key a = k
      · simp [List.filter_cons, h]
      · simp [List.filter_cons, h]
    rw [List.map_congr_left hterm,
        sum_map_if_mem keys (key a) (val a) _ hnd (hcov a (List.mem_cons_self a t)),
        ih (fun x hx => hcov x (List.mem_cons_of_mem a hx))]
    simp

/-- Sum of a list of nonpositive rationals is nonpositive. -/
lemma sum_nonpos_of_mem (l : List ℚ) (h : ∀ x ∈ l, x ≤ 0) : l.sum ≤ 0 := by
  induction l with
  | nil => simp
  | cons a t ih =>
    simp only [List.sum_cons]
    have ha := h a (List.mem_cons_self a t)
    have ht := ih (fun x hx => h x (List.mem_cons_of_mem a hx))
    linarith

omit [DecidableEq κ] in
/-- Mapping a negation through a sum. -/
lemma sum_map_neg (keys : List κ) (w : κ → ℚ) :
    (keys.map (fun k => -(w k))).sum = -((keys.map w).sum) := by
  induction keys with
  | nil => simp
  | cons k ks ih => simp only [List.map_cons, List.sum_cons, ih]; ring

end GroupSumLemmas

/-- The groupby-abs step over pairs with nonpositive values sums to the
negated total: grouping is a partition and each absolute group total is the
negated group sum. -/
lemma groupAbs_sum (l : List (String × ℚ)) (h : ∀ p ∈ l, p.2 ≤ 0) :
    ((PFA.groupAbs l).map Prod.snd).sum = -((l.map Prod.snd).sum) := by
  unfold PFA.groupAbs
  rw [List.map_map]
  have hpt : ∀ k ∈ (l.map Prod.fst).dedup,
      (Prod.snd ∘ fun k => (k, |((l.filter (fun p => p.1 = k)).map Prod.snd).sum|)) k
        = (fun k => -(((l.filter (fun p => p.1 = k)).map Prod.snd).sum)) k := by
    intro k _
    have hle : ((l.filter (fun p => p.1 = k)).map Prod.snd).sum ≤ 0 := by
      apply sum_nonpos_of_mem
      intro x hx
      rcases List.mem_map.mp hx with ⟨p, hp, hpx⟩
      exact hpx ▸ h p (List.mem_of_mem_filter hp)
    simp [abs_of_nonpos hle]
  rw [List.map_congr_left hpt, sum_map_neg]
  congr 1
  exact sum_groups Prod.fst Prod.snd _ l (List.nodup_dedup _)
    (fun p hp => List.mem_dedup.mpr (List.mem_map_of_mem Prod.fst hp))

/-- Sorting does not change the multiset of values, hence not the sum. -/
lemma sortDesc_sum (l : List (String × ℚ)) :
    ((PFA.sortDesc l).map Prod.snd).sum = (l.map Prod.snd).sum :=
  ((List.mergeSort_perm l (fun a b => b.2 ≤ a.2)).map Prod.snd).sum_eq

namespace TTA

/-- Folded minimum is below its start value. -/
lemma foldl_min_le (rs : List Row) : ∀ a : ℕ, rs.foldl (fun b x => min b x.date) a ≤ a := by
  induction rs with
  | nil => intro a; simp
  | cons y t ih =>
    intro a
    calc t.foldl (fun b x => min b x.date) (min a y.date) ≤ min a y.date := ih _
    _ ≤ a := min_le_left _ _

/-- Folded minimum is below every date in the list. -/
lemma foldl_min_le_date (rs : List Row) :
    ∀ a : ℕ, ∀ x ∈ rs, rs.foldl (fun b x => min b x.date) a ≤ x.date := by
  induction rs with
  | nil => intro a x hx; cases hx
  | cons y t ih =>
    intro a x hx
    rcases List.mem_cons.mp hx with hxy | hxt
    · subst hxy
      calc t.foldl (fun b z => min b z.date) (min a x.date) ≤ min a x.date := foldl_min_le t _
      _ ≤ x.date := min_le_right _ _
    · exact ih _ x hxt

/-- Folded maximum is above its start value. -/
lemma le_foldl_max (rs : List Row) : ∀ a : ℕ, a ≤ rs.foldl (fun b x => max b x.date) a := by
  induction rs with
  | nil => intro a; simp
  | cons y t ih =>
    intro a
    calc a ≤ max a y.date := le_max_left _ _
    _ ≤ t.foldl (fun b x => max b x.date) (max a y.date) := ih _

/-- Folded maximum is above every date in the list. -/
lemma date_le_foldl_max (rs : List Row) :
    ∀ a : ℕ, ∀ x ∈ rs, x.date ≤ rs.foldl (fun b x => max b x.date) a := by
  induction rs with
  | nil => intro a x hx; cases hx
  | cons y t ih =>
    intro a x hx
    rcases List.mem_cons.mp hx with hxy | hxt
    · subst hxy
      calc x.date ≤ max a x.date := le_max_right _ _
      _ ≤ t.foldl (fun b z => max b z.date) (max a x.date) := le_foldl_max t _
    · exact ih _ x hxt

lemma datesMin_le (r : Row) (rs : List Row) : ∀ x ∈ r :: rs, datesMin r rs ≤ x.date := by
  intro x hx
  rcases List.mem_cons.mp hx with hxr | hxs
  · exact hxr ▸ foldl_min_le rs r.date
  · exact foldl_min_le_date rs r.date x hxs

lemma le_datesMax (r : Row) (rs : List Row) : ∀ x ∈ r :: rs, x.date ≤ datesMax r rs := by
  intro x hx
  rcases List.mem_cons.mp hx with hxr | hxs
  · exact hxr ▸ le_foldl_max rs r.date
  · exact date_le_foldl_max rs r.date x hxs

lemma wmonLabel_dvd (d : ℕ) : 7 ∣ wmonLabel d := Dvd.intro _ rfl

lemma le_wmonLabel (d : ℕ) : d ≤ wmonLabel d := by
  unfold wmonLabel
  have h1 := Nat.div_add_mod (d + 6) 7
  have h2 : (d + 6) % 7 < 7 := Nat.mod_lt _ (by norm_num)
  omega

lemma wmonLabel_lt (d : ℕ) : wmonLabel d < d + 7 := by
  unfold wmonLabel
  have h1 := Nat.div_add_mod (d + 6) 7
  omega

lemma wmonLabel_mono {d1 d2 : ℕ} (h : d1 ≤ d2) : wmonLabel d1 ≤ wmonLabel d2 :=
  Nat.mul_le_mul_left 7 (Nat.div_le_div_right (by omega))

/-- Any multiple of 7 between two endpoint labels occurs in the label list. -/
lemma mem_weeklyLabels {first last lab : ℕ} (h7f : 7 ∣ first) (h7l : 7 ∣ lab)
    (hfl : first ≤ lab) (hll : lab ≤ last) : lab ∈ weeklyLabels first last := by
  unfold weeklyLabels
  refine List.mem_map.mpr ⟨(lab - first) / 7, ?_, ?_⟩
  · refine List.mem_range.mpr ?_
    have h := Nat.div_le_div_right (c := 7) (Nat.sub_le_sub_right hll first)
    omega
  · have hdvd : 7 ∣ (lab - first) := Nat.dvd_sub' h7l h7f
    have h := Nat.mul_div_cancel' hdvd
    omega

lemma weeklyLabels_nodup (first last : ℕ) : (weeklyLabels first last).Nodup :=
  (List.nodup_range _).map (fun i j h => by omega)

end TTA

/-- Filtering by a weaker predicate first does not change a stronger filter. -/
lemma filter_filter_of_imp {α : Type} (p q : α → Bool) (h : ∀ a, p a = true → q a = true) :
    ∀ l : List α, (l.filter q).filter p = l.filter p := by
  intro l
  induction l with
  | nil => rfl
  | cons a t ih =>
    by_cases hq : q a = true
    · by_cases hp : p a = true <;> simp [List.filter_cons, hq, hp, ih]
    · have hp : p a = false := by
        cases hpa : p a
        · rfl
        · exact absurd (h a hpa) hq
      simp [List.filter_cons, hq, hp, ih]

namespace PFA

/-- The classifier agrees with the first-match-with-Income-fallback description. -/
lemma infer_eq_claimAmended (d : String) (a : ℚ) :
    infer_category d a = claimClassifierAmended d a := by
  unfold infer_category claimClassifierAmended firstMatchCat
  by_cases h : a > 0
  · simp [h]
  · cases hfind : KEYWORD_CATEGORIES.find?
        (fun ck => ck.2.any (fun kw => hasSub (lowerChars d) kw.data)) with
    | none => simp [hfind, h]
    | some ck =>
      by_cases hck : ck.1 = "Income" <;> simp [hfind, h, hck]

/-- A strictly negative amount is never classified as Income. -/
lemma infer_ne_income_of_neg {d : String} {a : ℚ} (h : a < 0) :
    infer_category d a ≠ "Income" := by
  have h0 : ¬ a > 0 := by linarith
  rw [infer_eq_claimAmended]
  unfold claimClassifierAmended
  rw [if_neg h0]
  cases hfind : firstMatchCat d with
  | none => simp [hfind]
  | some c =>
    simp only [hfind]
    by_cases hc : c = "Income"
    · rw [if_pos hc]; decide
    · rw [if_neg hc]; exact hc

end PFA

/-- C3 counterexample: for the description deposit with amount -5 the first
matching category of the keyword table is Income (so the claim as stated
demands the classifier return Income), but the classifier returns
Miscellaneous Expense. -/
theorem c3_counterexample :
    PFA.firstMatchCat "deposit" = some "Income" ∧
    PFA.claimClassifierOrig "deposit" (-5) = "Income" ∧
    PFA.infer_category "deposit" (-5) = "Miscellaneous Expense" := by
  refine ⟨by decide, ?_, ?_⟩
  · unfold PFA.claimClassifierOrig
    rw [if_neg (by decide)]
    decide
  · unfold PFA.infer_category
    rw [if_neg (by decide)]
    rw [if_neg (by decide)]
    decide

/-- C3 (amended): for every description and amount the classifier tests the
categories of the keyword table in declaration order against the lowercased
description and returns the first category with a matching keyword substring,
except that a first match on the Income category yields Miscellaneous Expense
for non-positive amounts; Miscellaneous Expense is returned when no category
matches, and positive amounts return Income directly without matching. -/
theorem c3_first_match_classifier :
    ∀ (d : String) (a : ℚ), PFA.infer_category d a = PFA.claimClassifierAmended d a :=
  fun d a => PFA.infer_eq_claimAmended d a

/-- C4: keyword classification is deterministic, and a row with negative
amount is never classified as Income, even when the description contains an
Income keyword. -/
theorem c4_deterministic_never_income :
    (∀ (d : String) (a : ℚ), PFA.infer_category d a = PFA.infer_category d a) ∧
    (∀ (d : String) (a : ℚ), a < 0 → PFA.infer_category d a ≠ "Income") :=
  ⟨fun _ _ => rfl, fun _ _ h => PFA.infer_ne_income_of_neg h⟩

/-- Witness for C4 at the Income-keyword description paycheck and amount -3. -/
theorem c4_witness : PFA.infer_category "paycheck" (-3) ≠ "Income" :=
  c4_deterministic_never_income.2 "paycheck" (-3) (by decide)

/-- Scenario rows of the summary-statistics claim (dates are day numbers). -/
def c8Rows : List PFA.Row :=
  [⟨4, "Starbucks Coffee", -9/2, none⟩,
   ⟨9, "Paycheck Deposit", 2000, none⟩,
   ⟨31, "Amazon order", -5999/100, none⟩]

/-- C8: on the scenario rows the summary statistics are income 2000.00,
expenses 64.49, net savings 1935.51, and the classifier assigns Dining to the
Starbucks row and Shopping to the Amazon row. -/
theorem c8_scenario_totals :
    PFA.total_income c8Rows = 2000 ∧
    PFA.total_expenses c8Rows = 6449 / 100 ∧
    PFA.net_savings c8Rows = 193551 / 100 ∧
    PFA.infer_category "Starbucks Coffee" (-9/2) = "Dining" ∧
    PFA.infer_category "Amazon order" (-5999/100) = "Shopping" := by
  refine ⟨?_, ?_, ?_, ?_, ?_⟩
  · norm_num [PFA.total_income, c8Rows, List.filter]
  · norm_num [PFA.total_expenses, c8Rows, List.filter]
  · norm_num [PFA.net_savings, PFA.total_income, PFA.total_expenses, c8Rows, List.filter]
  · unfold PFA.infer_category
    rw [if_neg (by norm_num)]
    decide
  · unfold PFA.infer_category
    rw [if_neg (by norm_num)]
    decide

/-- C9: a finance input lacking the Amount column makes the loader fail with
a missing-columns error naming Amount, and the run yields no summary and
saves no chart file. -/
theorem c9_missing_amount_column (input : PFA.FinanceInput)
    (h : ¬ "Amount" ∈ input.columns) :
    PFA.load_finance_data input
      = .error (.missingColumns
          (PFA.financeRequiredCols.filter (fun c => ¬ c ∈ input.columns)))
    ∧ "Amount" ∈ PFA.financeRequiredCols.filter (fun c => ¬ c ∈ input.columns)
    ∧ PFA.financeRun input = (none, []) := by
  have hmem : "Amount" ∈ PFA.financeRequiredCols.filter (fun c => ¬ c ∈ input.columns) :=
    List.mem_filter.mpr ⟨by simp [PFA.financeRequiredCols], decide_eq_true h⟩
  have hne : ¬ ((PFA.financeRequiredCols.filter
      (fun c => ¬ c ∈ input.columns)).isEmpty = true) := by
    intro he
    rw [List.isEmpty_iff.mp he] at hmem
    cases hmem
  have hload : PFA.load_finance_data input
      = .error (.missingColumns
          (PFA.financeRequiredCols.filter (fun c => ¬ c ∈ input.columns))) := by
    unfold PFA.load_finance_data
    rw [if_neg hne]
  refine ⟨hload, hmem, ?_⟩
  unfold PFA.financeRun
  rw [hload]

/-- Witness for C9 on a two-column finance file. -/
theorem c9_witness :
    PFA.load_finance_data ⟨["Date", "Description"], []⟩
      = .error (.missingColumns
          (PFA.financeRequiredCols.filter (fun c => ¬ c ∈ ["Date", "Description"])))
    ∧ "Amount" ∈ PFA.financeRequiredCols.filter (fun c => ¬ c ∈ ["Date", "Description"])
    ∧ PFA.financeRun ⟨["Date", "Description"], []⟩ = (none, []) :=
  c9_missing_amount_column ⟨["Date", "Description"], []⟩ (by decide)

/-- C10: a finance row whose amount is zero, in particular every row whose
Amount failed coercion and was defaulted to zero by the loader, contributes
to neither total income nor total expenses, and the expense filter of the
category analysis excludes it. -/
theorem c10_zero_amount_rows :
    (∀ (raw : PFA.RawRow) (d : ℕ), raw.date = some d → raw.amount = none →
        PFA.coerceFinRow raw = some ⟨d, raw.description, 0, raw.category⟩) ∧
    (∀ rows : List PFA.Row,
        PFA.total_income rows = PFA.total_income (rows.filter (fun r => ¬ r.amount = 0)) ∧
        PFA.total_expenses rows
          = PFA.total_expenses (rows.filter (fun r => ¬ r.amount = 0)) ∧
        rows.filter (fun r => r.amount < 0)
          = (rows.filter (fun r => ¬ r.amount = 0)).filter (fun r => r.amount < 0)) := by
  constructor
  · intro raw d hd ha
    unfold PFA.coerceFinRow
    rw [hd, ha]
    rfl
  · intro rows
    have hpos : ∀ r : PFA.Row, decide (r.amount > 0) = true → decide (¬ r.amount = 0) = true := by
      intro r hr
      simp only [decide_eq_true_eq] at hr ⊢
      intro h0
      rw [h0] at hr
      exact lt_irrefl 0 hr
    have hneg : ∀ r : PFA.Row, decide (r.amount < 0) = true → decide (¬ r.amount = 0) = true := by
      intro r hr
      simp only [decide_eq_true_eq] at hr ⊢
      intro h0
      rw [h0] at hr
      exact lt_irrefl 0 hr
    refine ⟨?_, ?_, ?_⟩
    · unfold PFA.total_income
      rw [filter_filter_of_imp _ _ hpos]
    · unfold PFA.total_expenses
      rw [filter_filter_of_imp _ _ hneg]
    · rw [filter_filter_of_imp _ _ hneg]

/-- Witness for C10: a coercion-defaulted row and a concrete zero-amount row. -/
theorem c10_witness :
    PFA.coerceFinRow ⟨some 3, "mystery", none, none⟩ = some ⟨3, "mystery", 0, none⟩ ∧
    PFA.total_income [⟨0, "z", 0, none⟩]
      = PFA.total_income ([(⟨0, "z", 0, none⟩ : PFA.Row)].filter (fun r => ¬ r.amount = 0)) :=
  ⟨c10_zero_amount_rows.1 ⟨some 3, "mystery", none, none⟩ 3 rfl rfl,
   (c10_zero_amount_rows.2 [⟨0, "z", 0, none⟩]).1⟩

/-- Length of a filterMap equals the count of elements it keeps. -/
lemma length_filterMap_eq {α β : Type} (f : α → Option β) (l : List α) :
    (l.filterMap f).length = (l.filter (fun a => (f a).isSome)).length := by
  induction l with
  | nil => rfl
  | cons a t ih =>
    cases hfa : f a <;> simp [List.filterMap_cons, List.filter_cons, hfa, ih]

/-- Finance input whose single row has an unparsable date, so that every row
is dropped during coercion. -/
def c2Input : PFA.FinanceInput :=
  ⟨["Date", "Description", "Amount"], [⟨none, "x", some 5, none⟩]⟩

/-- C2 counterexample: with every row dropped during coercion the finance
loader does not fail with a no-valid-data error; it returns the empty record
set and the run continues, producing a zero-total summary report rather than
aborting. -/
theorem c2_counterexample :
    PFA.load_finance_data c2Input = .ok [] ∧
    PFA.financeRun c2Input = (some (0, 0, 0), []) := by
  have hload : PFA.load_finance_data c2Input = .ok [] := rfl
  refine ⟨hload, ?_⟩
  unfold PFA.financeRun
  rw [hload]
  norm_num [PFA.total_income, PFA.total_expenses, PFA.net_savings,
    PFA.analyze_spending_by_category]

/-- C2 (amended): when date/numeric coercion drops every row, the
time-tracking loader fails with the no-valid-data error (aborting the run),
while the finance loader returns the empty record set and the finance run
continues, printing a zero-total summary and saving no charts. -/
theorem c2_all_rows_dropped :
    (∀ input : TTA.TimeInput,
        "Date" ∈ input.columns → "Duration" ∈ input.columns →
        "Project" ∈ input.columns →
        (∀ raw ∈ input.rows, TTA.coerceTimeRow raw = none) →
        TTA.load_time_data input = .error .noValidData) ∧
    (∀ input : PFA.FinanceInput,
        "Date" ∈ input.columns → "Description" ∈ input.columns →
        "Amount" ∈ input.columns →
        (∀ raw ∈ input.rows, PFA.coerceFinRow raw = none) →
        PFA.load_finance_data input = .ok [] ∧
        PFA.financeRun input = (some (0, 0, 0), [])) := by
  constructor
  · intro input h1 h2 h3 h4
    have hmiss : TTA.timeRequiredCols.filter (fun c => ¬ c ∈ input.columns) = [] := by
      simp [TTA.timeRequiredCols, List.filter_cons, h1, h2]
    have hfind : TTA.projectColOptions.find? (fun c => c ∈ input.columns)
        = some "Project" := by
      simp [TTA.projectColOptions, List.find?, h3]
    have hrows : input.rows.filterMap TTA.coerceTimeRow = [] :=
      List.filterMap_eq_nil_iff.mpr h4
    unfold TTA.load_time_data
    rw [hmiss]
    simp only [List.isEmpty_nil, not_true, if_false, hfind, hrows]
    rfl
  · intro input h1 h2 h3 h4
    have hmiss : PFA.financeRequiredCols.filter (fun c => ¬ c ∈ input.columns) = [] := by
      simp [PFA.financeRequiredCols, List.filter_cons, h1, h2, h3]
    have hrows : input.rows.filterMap PFA.coerceFinRow = [] :=
      List.filterMap_eq_nil_iff.mpr h4
    have hload : PFA.load_finance_data input = .ok [] := by
      unfold PFA.load_finance_data
      rw [hmiss, hrows]
      rfl
    refine ⟨hload, ?_⟩
    unfold PFA.financeRun
    rw [hload]
    norm_num [PFA.total_income, PFA.total_expenses, PFA.net_savings,
      PFA.analyze_spending_by_category]

/-- Witness for C2 on a one-row time-tracking file with unparsable date and a
one-row finance file with unparsable date. -/
theorem c2_witness :
    TTA.load_time_data ⟨["Date", "Duration", "Project"], [⟨none, some 1⟩]⟩
      = .error .noValidData ∧
    PFA.load_finance_data ⟨["Date", "Description", "Amount"], [⟨none, "y", some 2, none⟩]⟩
      = .ok [] :=
  ⟨c2_all_rows_dropped.1 ⟨["Date", "Duration", "Project"], [⟨none, some 1⟩]⟩
      (by decide) (by decide) (by decide)
      (by intro raw hr; rw [List.mem_singleton.mp hr]; rfl),
   (c2_all_rows_dropped.2 ⟨["Date", "Description", "Amount"], [⟨none, "y", some 2, none⟩]⟩
      (by decide) (by decide) (by decide)
      (by intro raw hr; rw [List.mem_singleton.mp hr]; rfl)).1⟩

/-- Time-tracking input with one row whose date parses but whose duration
does not. -/
def c7Input : TTA.TimeInput := ⟨["Date", "Duration", "Project"], [⟨some 0, none⟩]⟩

/-- C7 counterexample: this input has exactly one row with a parsable date,
yet the time-tracking loader does not return that row: the duration coercion
drops it too and the loader fails with the no-valid-data error. -/
theorem c7_counterexample :
    (c7Input.rows.filter (fun r => r.date.isSome)).length = 1 ∧
    TTA.load_time_data c7Input = .error .noValidData := ⟨rfl, rfl⟩

/-- C7 (amended): the finance loader keeps exactly the rows with parsable
dates (unparsable amounts are defaulted, not dropped), while the
time-tracking loader keeps exactly the rows whose date and duration both
parse, failing with the no-valid-data error when none remain. -/
theorem c7_date_drop_exact :
    (∀ input : PFA.FinanceInput,
        "Date" ∈ input.columns → "Description" ∈ input.columns →
        "Amount" ∈ input.columns →
        PFA.load_finance_data input = .ok (input.rows.filterMap PFA.coerceFinRow) ∧
        (input.rows.filterMap PFA.coerceFinRow).length
          = (input.rows.filter (fun r => r.date.isSome)).length) ∧
    (∀ input : TTA.TimeInput,
        "Date" ∈ input.columns → "Duration" ∈ input.columns →
        "Project" ∈ input.columns →
        (input.rows.filterMap TTA.coerceTimeRow).length
          = (input.rows.filter (fun r => r.date.isSome && r.duration.isSome)).length ∧
        (¬ input.rows.filterMap TTA.coerceTimeRow = [] →
          TTA.load_time_data input
            = .ok (input.rows.filterMap TTA.coerceTimeRow, "Project")) ∧
        (input.rows.filterMap TTA.coerceTimeRow = [] →
          TTA.load_time_data input = .error .noValidData)) := by
  constructor
  · intro input h1 h2 h3
    have hmiss : PFA.financeRequiredCols.filter (fun c => ¬ c ∈ input.columns) = [] := by
      simp [PFA.financeRequiredCols, List.filter_cons, h1, h2, h3]
    constructor
    · unfold PFA.load_finance_data
      rw [hmiss]
      rfl
    · rw [length_filterMap_eq]
      congr 1
      apply List.filter_congr
      intro raw _
      cases hd : raw.date <;> simp [PFA.coerceFinRow, hd]
  · intro input h1 h2 h3
    have hmiss : TTA.timeRequiredCols.filter (fun c => ¬ c ∈ input.columns) = [] := by
      simp [TTA.timeRequiredCols, List.filter_cons, h1, h2]
    have hfind : TTA.projectColOptions.find? (fun c => c ∈ input.columns)
        = some "Project" := by
      simp [TTA.projectColOptions, List.find?, h3]
    refine ⟨?_, ?_, ?_⟩
    · rw [length_filterMap_eq]
      congr 1
      apply List.filter_congr
      intro raw _
      cases hd : raw.date <;> cases hdu : raw.duration <;>
        simp [TTA.coerceTimeRow, hd, hdu]
    · intro hne
      unfold TTA.load_time_data
      rw [hmiss]
      simp only [List.isEmpty_nil, not_true, if_false, hfind]
      rw [if_neg (by simpa [List.isEmpty_iff] using hne)]
    · intro heq
      unfold TTA.load_time_data
      rw [hmiss]
      simp only [List.isEmpty_nil, not_true, if_false, hfind, heq]
      rfl

/-- Witness for C7: a finance file keeping one of two rows and a time file
dropping its only (duration-unparsable) row. -/
theorem c7_witness :
    PFA.load_finance_data ⟨["Date", "Description", "Amount"],
        [⟨some 1, "a", none, none⟩, ⟨none, "b", some 2, none⟩]⟩
      = .ok ((([⟨some 1, "a", none, none⟩, ⟨none, "b", some 2, none⟩] :
          List PFA.RawRow)).filterMap PFA.coerceFinRow) ∧
    TTA.load_time_data ⟨["Date", "Duration", "Project"], [⟨some 0, none⟩]⟩
      = .error .noValidData :=
  ⟨(c7_date_drop_exact.1 ⟨["Date", "Description", "Amount"],
      [⟨some 1, "a", none, none⟩, ⟨none, "b", some 2, none⟩]⟩
      (by decide) (by decide) (by decide)).1,
   (c7_date_drop_exact.2 ⟨["Date", "Duration", "Project"], [⟨some 0, none⟩]⟩
      (by decide) (by decide) (by decide)).2.2 (by decide)⟩

/-- C6: on any filtered expense set of (category, amount) pairs with every
amount strictly negative, the sum of the per-category absolute spending
totals of the sorted groupby equals the absolute value of the total expense
amount: the per-category grouping is an exact partition. -/
theorem c6_category_sums_partition (l : List (String × ℚ)) (h : ∀ p ∈ l, p.2 < 0) :
    ((PFA.sortDesc (PFA.groupAbs l)).map Prod.snd).sum = |(l.map Prod.snd).sum| := by
  rw [sortDesc_sum, groupAbs_sum l (fun p hp => le_of_lt (h p hp))]
  have hle : (l.map Prod.snd).sum ≤ 0 := by
    apply sum_nonpos_of_mem
    intro x hx
    rcases List.mem_map.mp hx with ⟨p, hp, rfl⟩
    exact le_of_lt (h p hp)
  rw [abs_of_nonpos hle]

/-- Witness for C6 on three expense pairs in two categories. -/
theorem c6_witness :
    ((PFA.sortDesc (PFA.groupAbs [("Dining", -3), ("Dining", -2), ("Travel", -5)])).map
        Prod.snd).sum
      = |(([("Dining", (-3 : ℚ)), ("Dining", -2), ("Travel", -5)]).map Prod.snd).sum| :=
  c6_category_sums_partition [("Dining", -3), ("Dining", -2), ("Travel", -5)] (by decide)

/-- The float threshold comparison of the inference trigger, stated over the
rationals, is the strict 70 percent test. -/
lemma threshold_iff (n m : ℕ) : ((n : ℚ) > 7 / 10 * (m : ℚ)) ↔ 10 * n > 7 * m := by
  rw [gt_iff_lt, gt_iff_lt]
  constructor
  · intro h
    have h10 : (7 : ℚ) * m < 10 * n := by nlinarith
    exact_mod_cast h10
  · intro h
    have h10 : (7 : ℚ) * m < 10 * n := by exact_mod_cast h
    nlinarith

/-- C5: when the category analysis produces a result, it used keyword
inference exactly when the Category column is absent or more than 70 percent
of the expense rows have an empty category cell; in the explicit branch the
groups come from grouping the expense rows by the explicit column after
dropping rows explicitly labelled income case-insensitively (null-category
rows being dropped by the groupby). -/
theorem c5_inference_trigger (columns : List String) (rows : List PFA.Row)
    (b : Bool) (groups : List (String × ℚ))
    (h : PFA.analyze_spending_by_category columns rows = some (b, groups)) :
    (b = true ↔
      (¬ "Category" ∈ columns ∨
        10 * PFA.nullCount (rows.filter (fun r => r.amount < 0))
          > 7 * (rows.filter (fun r => r.amount < 0)).length)) ∧
    (b = false →
      groups = PFA.sortDesc (PFA.groupAbs
        (((rows.filter (fun r => r.amount < 0)).filter
            (fun r => ¬ (r.category.map lowerChars = some "income".data))).filterMap
          (fun r => r.category.map (fun c => (c, r.amount)))))) := by
  simp only [PFA.analyze_spending_by_category] at h
  by_cases he : rows.isEmpty
  · rw [if_pos he] at h
    cases h
  rw [if_neg he] at h
  by_cases hex : (rows.filter (fun r => r.amount < 0)).isEmpty
  · rw [if_pos hex] at h
    cases h
  rw [if_neg hex] at h
  by_cases hc : ¬ "Category" ∈ columns ∨
      ((PFA.nullCount (rows.filter (fun r => r.amount < 0)) : ℚ)
        > 7 / 10 * ((rows.filter (fun r => r.amount < 0)).length : ℚ))
  · rw [if_pos hc] at h
    by_cases hd : ((((rows.filter (fun r => r.amount < 0)).map
        (fun r => (PFA.infer_category r.description r.amount, r.amount))).filter
          (fun p => ¬ p.1 = "Income")).map Prod.fst).dedup.isEmpty
    · rw [if_pos hd] at h
      cases h
    · rw [if_neg hd] at h
      rw [Option.some_inj, Prod.ext_iff] at h
      obtain ⟨hb, _⟩ := h
      subst hb
      constructor
      · simp only [true_iff]
        rcases hc with hc | hc
        · exact Or.inl hc
        · exact Or.inr ((threshold_iff _ _).mp hc)
      · intro hfalse
        cases hfalse
  · rw [if_neg hc] at h
    by_cases hd : (rows.filter (fun r => r.amount < 0)).filter
          (fun r => ¬ (r.category.map lowerChars = some "income".data)) = [] ∨
        (((((rows.filter (fun r => r.amount < 0)).filter
            (fun r => ¬ (r.category.map lowerChars = some "income".data))).filterMap
          (fun r => r.category.map (fun c => (c, r.amount)))).map Prod.fst).dedup).isEmpty
    · rw [if_pos (by
          rcases hd with hd | hd
          · exact Or.inl (by rw [hd]; rfl)
          · exact Or.inr hd)] at h
      cases h
    · rw [if_neg (by
          intro hor
          rcases hor with hor | hor
          · exact hd (Or.inl (List.isEmpty_iff.mp hor))
          · exact hd (Or.inr hor))] at h
      rw [Option.some_inj, Prod.ext_iff] at h
      obtain ⟨hb, hg⟩ := h
      subst hb
      constructor
      · constructor
        · intro hfb
          cases hfb
        · intro hcond
          exfalso
          apply hc
          rcases hcond with hcond | hcond
          · exact Or.inl hcond
          · exact Or.inr ((threshold_iff _ _).mpr hcond)
      · intro _
        exact hg.symm

/-- Concrete expense row list for the C5 witness. -/
def c5Input : List PFA.Row := [⟨0, "a", -5, none⟩]

/-- The groups that the inference branch produces on `c5Input`. -/
def c5Groups : List (String × ℚ) :=
  PFA.sortDesc (PFA.groupAbs
    (((c5Input.filter (fun r => r.amount < 0)).map
        (fun r => (PFA.infer_category r.description r.amount, r.amount))).filter
      (fun p => ¬ p.1 = "Income")))

/-- Witness for C5 on a one-expense finance table with no Category column:
the analysis runs in the inference branch and the trigger condition holds. -/
theorem c5_witness :
    (true = true ↔
      (¬ "Category" ∈ ["Date", "Description", "Amount"] ∨
        10 * PFA.nullCount (c5Input.filter (fun r => r.amount < 0))
          > 7 * (c5Input.filter (fun r => r.amount < 0)).length)) ∧
    (true = false →
      c5Groups = PFA.sortDesc (PFA.groupAbs
        (((c5Input.filter (fun r => r.amount < 0)).filter
            (fun r => ¬ (r.category.map lowerChars = some "income".data))).filterMap
          (fun r => r.category.map (fun c => (c, r.amount)))))) :=
  c5_inference_trigger ["Date", "Description", "Amount"] c5Input true c5Groups
    (by
      simp only [PFA.analyze_spending_by_category, c5Input]
      rw [if_neg (by decide), if_neg (by decide), if_pos (Or.inl (by decide)),
        if_neg (by decide)]
      rfl)

/-- C1 counterexample: day 0 is a Monday and day 1 the following Tuesday, so
both lie in the same ISO week starting Monday, yet the weekly trend puts
them in two different buckets (the W-MON rule produces bins that end, not
start, on Mondays); and with entries on days 0 and 14 only, the trend emits
a bucket labelled day 7 with sum 0 for the empty week in between, which the
claim forbids. -/
theorem c1_counterexample :
    TTA.analyze_time_trends_W [⟨0, 1⟩, ⟨1, 2⟩] = [(0, 1), (7, 2)] ∧
    TTA.isoWeekBuckets [⟨0, 1⟩, ⟨1, 2⟩] = [(0, 3)] ∧
    TTA.analyze_time_trends_W [⟨0, 1⟩, ⟨14, 2⟩] = [(0, 1), (7, 0), (14, 2)] := by
  refine ⟨?_, ?_, ?_⟩
  · norm_num [TTA.analyze_time_trends_W, TTA.weeklyLabels, TTA.wmonLabel,
      TTA.datesMin, TTA.datesMax, List.range_succ, List.filter]
  · norm_num [TTA.isoWeekBuckets, List.filter, List.dedup_cons_of_mem,
      List.dedup_cons_of_not_mem]
  · norm_num [TTA.analyze_time_trends_W, TTA.weeklyLabels, TTA.wmonLabel,
      TTA.datesMin, TTA.datesMax, List.range_succ, List.filter]

/-- C1 (amended): with weekly trend period the aggregation resamples with the
W-MON rule: buckets are weekly bins that end on a Monday (covering the
preceding Tuesday through that Monday), labelled by that Monday; there is
one bucket per consecutive weekly label from the first entry's label to the
last entry's label, so weeks without entries get a zero-sum bucket; each
bucket's value is the sum of the durations of the rows in its bin, every row
falls in some bucket, and the bucket values sum to the total duration. -/
theorem c1_weekly_wmon_buckets (r : TTA.Row) (rs : List TTA.Row) :
    ((TTA.analyze_time_trends_W (r :: rs)).map Prod.fst
        = TTA.weeklyLabels (TTA.wmonLabel (TTA.datesMin r rs))
            (TTA.wmonLabel (TTA.datesMax r rs))) ∧
    (∀ p ∈ TTA.analyze_time_trends_W (r :: rs),
        p.1 % 7 = 0 ∧
        p.2 = (((r :: rs).filter (fun x => TTA.wmonLabel x.date = p.1)).map
                 (fun x => x.duration)).sum) ∧
    (∀ x ∈ r :: rs,
        TTA.wmonLabel x.date
          ∈ (TTA.analyze_time_trends_W (r :: rs)).map Prod.fst) ∧
    ((TTA.analyze_time_trends_W (r :: rs)).map Prod.snd).sum
        = ((r :: rs).map (fun x => x.duration)).sum := by
  have hdef : TTA.analyze_time_trends_W (r :: rs)
      = (TTA.weeklyLabels (TTA.wmonLabel (TTA.datesMin r rs))
            (TTA.wmonLabel (TTA.datesMax r rs))).map
          (fun lab => (lab,
            (((r :: rs).filter (fun x => TTA.wmonLabel x.date = lab)).map
              (fun x => x.duration)).sum)) := rfl
  have hfst : (TTA.analyze_time_trends_W (r :: rs)).map Prod.fst
      = TTA.weeklyLabels (TTA.wmonLabel (TTA.datesMin r rs))
          (TTA.wmonLabel (TTA.datesMax r rs)) := by
    rw [hdef, List.map_map]
    exact List.map_id _
  have hcov : ∀ x ∈ r :: rs,
      TTA.wmonLabel x.date
        ∈ TTA.weeklyLabels (TTA.wmonLabel (TTA.datesMin r rs))
            (TTA.wmonLabel (TTA.datesMax r rs)) := by
    intro x hx
    exact TTA.mem_weeklyLabels (TTA.wmonLabel_dvd _) (TTA.wmonLabel_dvd _)
      (TTA.wmonLabel_mono (TTA.datesMin_le r rs x hx))
      (TTA.wmonLabel_mono (TTA.le_datesMax r rs x hx))
  refine ⟨hfst, ?_, ?_, ?_⟩
  · intro p hp
    rw [hdef] at hp
    rcases List.mem_map.mp hp with ⟨lab, hlab, rfl⟩
    refine ⟨?_, rfl⟩
    unfold TTA.weeklyLabels at hlab
    rcases List.mem_map.mp hlab with ⟨i, _, rfl⟩
    obtain ⟨a, ha⟩ := TTA.wmonLabel_dvd (TTA.datesMin r rs)
    simp only [ha]
    omega
  · intro x hx
    rw [hfst]
    exact hcov x hx
  · rw [hdef, List.map_map]
    exact sum_groups (fun x : TTA.Row => TTA.wmonLabel x.date)
      (fun x : TTA.Row => x.duration) _ _ (TTA.weeklyLabels_nodup _ _) hcov

/-- Witness for C1 on a single Monday entry. -/
theorem c1_witness :
    TTA.wmonLabel (0 : ℕ)
      ∈ (TTA.analyze_time_trends_W [⟨0, 1⟩]).map Prod.fst ∧
    ((TTA.analyze_time_trends_W [⟨0, 1⟩]).map Prod.snd).sum
      = (([⟨0, 1⟩] : List TTA.Row).map (fun x => x.duration)).sum :=
  ⟨(c1_weekly_wmon_buckets ⟨0, 1⟩ []).2.2.1 ⟨0, 1⟩ (by simp),
   (c1_weekly_wmon_buckets ⟨0, 1⟩ []).2.2.2⟩
